import Mathlib

/-!
# Verification of the ni660x `CountingApp` acquisition coordinator

Shallow embedding of `src/ni660x/application.py` (class `CountingApp`).
The coordinator owns an insertion-ordered mapping from channel name to
channel (a Python `dict`, embedded as an association list with unique
keys), a list `_channels_started` of the names collected by the most
recent `start_channels` call, and one gate generator (`_timer`).

The channel class `PulseCounter` (from `ni660x/counter.py`) and the
generator class `PulseTimeGenerator` (from `ni660x/generator.py`) are not
part of the sources available here; they are modelled from the design
document (sections 4.1 and 4.2).  All coordinator methods are translated
line by line from `application.py`.  A Python method that can raise is
embedded as a function returning the mutated state together with an
`Option String` error (the state component records the in-place mutations
performed before the exception fired, matching Python's semantics where
an exception does not roll back earlier assignments).
-/

/-- Modelled from the spec: `PulseCounter` (`ni660x/counter.py` is not
among the available sources).  Section 4.1: a channel has a mutable
`enabled` flag, a growing `buffer` of acquired samples (`data`), a
readiness count (`sample_readies`), and `start`/`stop` operations.
`armed` records whether the channel is currently started; `arm_ok` is
the environment's choice of whether arming the underlying hardware
resource succeeds (`start` fails with `ResourceError` otherwise). -/
structure PulseCounter where
  enabled : Bool
  armed : Bool
  buffer : List Int
  sample_readies : Nat
  arm_ok : Bool
  deriving Repr, DecidableEq

/-- Modelled from the spec: `PulseCounter.start(sampleCount)` (section
4.1) arms the resource and resets the buffer and ready count for the new
run; it fails with `ResourceError` when the hardware cannot be armed. -/
def PulseCounter.start (c : PulseCounter) (_samples : Nat) :
    Except String PulseCounter :=
  if c.arm_ok then
    .ok { c with armed := true, buffer := [], sample_readies := 0 }
  else
    .error "ResourceError"

/-- Modelled from the spec: `PulseCounter.stop()` (section 4.1) disarms
the resource; it is safe whether or not the channel was started, and is
idempotent (a total function: it never raises). -/
def PulseCounter.stop (c : PulseCounter) : PulseCounter :=
  { c with armed := false }

/-- Modelled from the spec: `PulseTimeGenerator` (`ni660x/generator.py`
is not among the available sources).  Section 4.2: the gate generator
exposes `start(sampleCount, highTime, lowTime, initialDelay)`, `stop()`
and a `done` flag; `arm_ok` is the environment's choice of whether a
`start` succeeds (`ResourceError` otherwise). -/
structure PulseTimeGenerator where
  armed : Bool
  done : Bool
  arm_ok : Bool
  deriving Repr, DecidableEq

/-- Modelled from the spec: `PulseTimeGenerator.start` (section 4.2)
begins emitting the gate pulse train; fails with `ResourceError` on a
hardware conflict or invalid parameters. -/
def PulseTimeGenerator.start (t : PulseTimeGenerator) (_samples : Nat)
    (_high_time _low_time _initial_delay : Int) :
    Except String PulseTimeGenerator :=
  if t.arm_ok then .ok { t with armed := true, done := false }
  else .error "ResourceError"

/-- Modelled from the spec: `PulseTimeGenerator.stop` (section 4.2)
halts pulse emission (total, idempotent); `done` is true after `stop`. -/
def PulseTimeGenerator.stop (t : PulseTimeGenerator) : PulseTimeGenerator :=
  { t with armed := false, done := true }

/-- Python `dict` lookup (`self._channels[name]`) on the insertion-ordered
association list: the first entry with the given key, if any. -/
def lookupCh (n : String) : List (String × PulseCounter) → Option PulseCounter
  | [] => none
  | (m, c) :: rest => if m = n then some c else lookupCh n rest

/-- The state of `CountingApp` (`application.py`, `__init__`, lines
32-37): the name-to-channel dict `_channels`, the list
`_channels_started`, and the timer `_timer`. -/
structure CountingApp where
  channels : List (String × PulseCounter)
  channels_started : List String
  timer : PulseTimeGenerator
  deriving Repr, DecidableEq

/-- The loop body of `start_channels` (`application.py` lines 51-54):
`for name, channel in self._channels.items(): channel.start(samples);
if channel.enabled: self._channels_started.append(name)`.  An exception
from `channel.start` propagates immediately: the channels already
processed keep their new state, the failing channel and the rest are
untouched, and the failing channel's name is not appended. -/
def startChannelsLoop (samples : Nat) :
    List (String × PulseCounter) → List String →
    List (String × PulseCounter) × List String × Option String
  | [], started => ([], started, none)
  | (name, ch) :: rest, started =>
    match ch.start samples with
    | .error e => ((name, ch) :: rest, started, some e)
    | .ok ch' =>
      let started' := if ch'.enabled then started ++ [name] else started
      let (rest', started'', err) := startChannelsLoop samples rest started'
      ((name, ch') :: rest', started'', err)

/-- `CountingApp.start_channels` (`application.py` lines 48-54): resets
`_channels_started` to `[]`, then runs the loop over every configured
channel. -/
def CountingApp.start_channels (app : CountingApp) (samples : Nat) :
    CountingApp × Option String :=
  let (chs, started, err) := startChannelsLoop samples app.channels []
  ({ app with channels := chs, channels_started := started }, err)

/-- `CountingApp.start_timer` (`application.py` lines 56-58): delegates
to `self._timer.start(samples, high_time, low_time, initial_delay)`. -/
def CountingApp.start_timer (app : CountingApp) (samples : Nat)
    (high_time low_time initial_delay : Int) : CountingApp × Option String :=
  match app.timer.start samples high_time low_time initial_delay with
  | .ok t => ({ app with timer := t }, none)
  | .error e => (app, some e)

/-- `CountingApp.start_all` (`application.py` lines 60-72):
`self.start_channels(samples)` then
`self.start_timer(samples, high_time, low_time, initial_delay)`; an
exception from `start_channels` propagates before `start_timer` runs. -/
def CountingApp.start_all (app : CountingApp) (samples : Nat)
    (high_time low_time initial_delay : Int) : CountingApp × Option String :=
  match app.start_channels samples with
  | (app', some e) => (app', some e)
  | (app', none) => app'.start_timer samples high_time low_time initial_delay

/-- `CountingApp.stop` (`application.py` lines 74-78): `self._timer.stop()`
first, then `channel.stop()` for every value of `self._channels`
(started or not).  Both stops are total, so the method never raises. -/
def CountingApp.stop (app : CountingApp) : CountingApp :=
  let app1 := { app with timer := app.timer.stop }
  { app1 with channels := app1.channels.map (fun p => (p.1, p.2.stop)) }

/-- The loop of `get_all_data` (`application.py` lines 89-92):
`for name in self._channels_started:
   data[name] = self._channels_started[name].data.tolist()`.
The right-hand side indexes the Python *list* `self._channels_started`
with the string `name`, which raises
`TypeError: list indices must be integers` on the very first iteration;
the accumulated dict is returned only when the loop body never runs. -/
def getAllDataLoop : List String → List (String × List Int) →
    Except String (List (String × List Int))
  | [], data => .ok data
  | _ :: _, _ => .error "TypeError: list indices must be integers or slices, not str"

/-- `CountingApp.get_all_data` (`application.py` lines 82-92). -/
def CountingApp.get_all_data (app : CountingApp) :
    Except String (List (String × List Int)) :=
  getAllDataLoop app.channels_started []

/-- `CountingApp.get_names` (`application.py` lines 94-99):
`list(self._channels.keys())`. -/
def CountingApp.get_names (app : CountingApp) : List String :=
  app.channels.map Prod.fst

/-- Python index normalisation for a slice bound with step 1: a negative
bound counts from the end (`i + len`), and the result is clamped into
`[0, len]`. -/
def pyBound (len : Nat) (i : Int) : Nat :=
  let j := if i < 0 then i + len else i
  if j ≤ 0 then 0 else min j.toNat len

/-- Python slicing `l[start:end]` with step 1: the elements with indices
in `[pyBound start, pyBound end)`. -/
def pySlice (l : List Int) (s e : Int) : List Int :=
  (l.take (pyBound l.length e)).drop (pyBound l.length s)

/-- `CountingApp.get_channel_data` (`application.py` lines 101-113):
`self._channels[name].data[start:end].tolist()` — a dict lookup (raising
`KeyError` for an unconfigured name) followed by a Python slice.  The
Python defaults are `start=0, end=-1`. -/
def CountingApp.get_channel_data (app : CountingApp) (name : String)
    (start fin : Int) : Except String (List Int) :=
  match lookupCh name app.channels with
  | none => .error "KeyError"
  | some ch => .ok (pySlice ch.buffer start fin)

/-- In-place update `self._channels[name].enabled = enabled` on the
association list: updates the (unique) entry with the given key. -/
def setEnabledOne (n : String) (en : Bool) :
    List (String × PulseCounter) → List (String × PulseCounter)
  | [] => []
  | (m, c) :: rest =>
    if m = n then (m, { c with enabled := en }) :: rest
    else (m, c) :: setEnabledOne n en rest

/-- The loop of `set_channels_enabled` (`application.py` lines 128-129):
`for name in names: self._channels[name].enabled = enabled`.  A missing
key raises `KeyError` at that iteration; the flags already assigned in
earlier iterations stay assigned. -/
def setEnabledLoop (en : Bool) :
    List String → List (String × PulseCounter) →
    List (String × PulseCounter) × Option String
  | [], chs => (chs, none)
  | n :: rest, chs =>
    match lookupCh n chs with
    | none => (chs, some "KeyError")
    | some _ => setEnabledLoop en rest (setEnabledOne n en chs)

/-- `CountingApp.set_channels_enabled` (`application.py` lines 115-129):
`if len(names) == 0: names = self._channels.keys()`, then the assignment
loop. -/
def CountingApp.set_channels_enabled (app : CountingApp)
    (names : List String) (enabled : Bool) : CountingApp × Option String :=
  let names' := if names = [] then app.channels.map Prod.fst else names
  let (chs, err) := setEnabledLoop enabled names' app.channels
  ({ app with channels := chs }, err)

/-- `CountingApp.get_channels_enabled` (`application.py` lines 131-141). -/
def CountingApp.get_channels_enabled (app : CountingApp) :
    List (String × Bool) :=
  app.channels.map (fun p => (p.1, p.2.enabled))

/-- The collection loop of `get_samples_readies` (`application.py` lines
144-146): `for name in self._channels_started:
samples_readies.append(self._channels[name].sample_readies)` —
a dict lookup that raises `KeyError` for a name missing from
`_channels`. -/
def samplesReadiesLoop (chs : List (String × PulseCounter)) :
    List String → List Nat → Except String (List Nat)
  | [], acc => .ok acc
  | n :: rest, acc =>
    match lookupCh n chs with
    | none => .error "KeyError"
    | some ch => samplesReadiesLoop chs rest (acc ++ [ch.sample_readies])

/-- `CountingApp.get_samples_readies` (`application.py` lines 143-150):
collects `sample_readies` over `_channels_started`, returns
`min(samples_readies)` when the list is non-empty and `0` otherwise. -/
def CountingApp.get_samples_readies (app : CountingApp) :
    Except String Nat :=
  match samplesReadiesLoop app.channels app.channels_started [] with
  | .error e => .error e
  | .ok [] => .ok 0
  | .ok (r :: rest) => .ok (rest.foldl min r)

/-- `CountingApp.is_done` (`application.py` lines 152-153). -/
def CountingApp.is_done (app : CountingApp) : Bool :=
  app.timer.done

/-- Coordinator states reachable from construction (`__init__` sets
`_channels_started = []`, builds the channel dict with unique keys, and
constructs channels that are not yet armed) by any sequence of the
mutating coordinator operations.  The state after an operation that
raised is reachable too (the exception does not roll back mutations). -/
inductive Reachable : CountingApp → Prop
  | init (channels : List (String × PulseCounter)) (timer : PulseTimeGenerator)
      (hnodup : (channels.map Prod.fst).Nodup)
      (hunarmed : ∀ p ∈ channels, p.2.armed = false) :
      Reachable ⟨channels, [], timer⟩
  | step_start_channels {app : CountingApp} (samples : Nat) :
      Reachable app → Reachable (app.start_channels samples).1
  | step_start_timer {app : CountingApp} (samples : Nat)
      (high_time low_time initial_delay : Int) :
      Reachable app →
      Reachable (app.start_timer samples high_time low_time initial_delay).1
  | step_start_all {app : CountingApp} (samples : Nat)
      (high_time low_time initial_delay : Int) :
      Reachable app →
      Reachable (app.start_all samples high_time low_time initial_delay).1
  | step_stop {app : CountingApp} :
      Reachable app → Reachable app.stop
  | step_set_channels_enabled {app : CountingApp}
      (names : List String) (enabled : Bool) :
      Reachable app → Reachable (app.set_channels_enabled names enabled).1

/-! ## Helper lemmas -/

/-- The state a successfully armed channel is left in by `start`. -/
def armCounter (c : PulseCounter) : PulseCounter :=
  { c with armed := true, buffer := [], sample_readies := 0 }

theorem PulseCounter.start_ok (c : PulseCounter) (s : Nat) (h : c.arm_ok = true) :
    c.start s = .ok (armCounter c) := by
  simp [PulseCounter.start, h, armCounter]

theorem PulseCounter.start_err (c : PulseCounter) (s : Nat) (h : c.arm_ok = false) :
    c.start s = .error "ResourceError" := by
  simp [PulseCounter.start, h]

/-- `startChannelsLoop` preserves the key list of the channel map. -/
theorem startChannelsLoop_keys (s : Nat) :
    ∀ (chs : List (String × PulseCounter)) (acc : List String),
      (startChannelsLoop s chs acc).1.map Prod.fst = chs.map Prod.fst := by
  intro chs
  induction chs with
  | nil => intro acc; rfl
  | cons p rest ih =>
    intro acc
    obtain ⟨name, ch⟩ := p
    by_cases h : ch.arm_ok
    · simp only [startChannelsLoop, ch.start_ok s h]
      simp [ih]
    · simp only [startChannelsLoop, ch.start_err s (by simpa using h)]

/-- Every name the `startChannelsLoop` collects comes from the
accumulator or from the keys of the traversed channels. -/
theorem startChannelsLoop_started_sub (s : Nat) :
    ∀ (chs : List (String × PulseCounter)) (acc : List String),
      ∀ n ∈ (startChannelsLoop s chs acc).2.1, n ∈ acc ∨ n ∈ chs.map Prod.fst := by
  intro chs
  induction chs with
  | nil => intro acc n hn; exact Or.inl hn
  | cons p rest ih =>
    intro acc n hn
    obtain ⟨name, ch⟩ := p
    by_cases h : ch.arm_ok
    · simp only [startChannelsLoop, ch.start_ok s h] at hn
      by_cases he : (armCounter ch).enabled
      · simp only [he, if_pos] at hn
        rcases ih (acc ++ [name]) n hn with hmem | hmem
        · rcases List.mem_append.1 hmem with h1 | h1
          · exact Or.inl h1
          · right; simp at h1; simp [h1]
        · right; simp [hmem]
      · simp only [he, if_neg, Bool.false_eq_true, not_false_iff] at hn
        rcases ih acc n hn with hmem | hmem
        · exact Or.inl hmem
        · right; simp [hmem]
    · simp only [startChannelsLoop, ch.start_err s (by simpa using h)] at hn
      exact Or.inl hn

/-- When every traversed channel can be armed, the loop succeeds: every
channel ends up armed with a fresh buffer, and the collected names are
the accumulator followed by the keys of the enabled channels, in map
order. -/
theorem startChannelsLoop_ok (s : Nat) :
    ∀ (chs : List (String × PulseCounter)) (acc : List String),
      (∀ p ∈ chs, p.2.arm_ok = true) →
      startChannelsLoop s chs acc =
        (chs.map (fun p => (p.1, armCounter p.2)),
         acc ++ (chs.filter (fun p => p.2.enabled)).map Prod.fst,
         none) := by
  intro chs
  induction chs with
  | nil => intro acc _; simp [startChannelsLoop]
  | cons p rest ih =>
    intro acc hall
    obtain ⟨name, ch⟩ := p
    have hok : ch.arm_ok = true := hall (name, ch) (List.mem_cons_self _ _)
    have hrest : ∀ p ∈ rest, p.2.arm_ok = true := fun q hq => hall q (List.mem_cons_of_mem _ hq)
    simp only [startChannelsLoop, ch.start_ok s hok]
    by_cases he : ch.enabled
    · have harm : (armCounter ch).enabled = true := by simp [armCounter, he]
      simp only [harm, if_pos, ih (acc ++ [name]) hrest]
      simp [List.filter, armCounter, he]
    · have harm : (armCounter ch).enabled = false := by
        simpa [armCounter] using (by simpa using he : ch.enabled = false)
      simp only [harm, Bool.false_eq_true, if_neg, not_false_iff, ih acc hrest]
      simp [List.filter, harm, he]

/-- If the loop reports no error, every traversed channel could be armed. -/
theorem startChannelsLoop_none_arm_ok (s : Nat) :
    ∀ (chs : List (String × PulseCounter)) (acc : List String),
      (startChannelsLoop s chs acc).2.2 = none →
      ∀ p ∈ chs, p.2.arm_ok = true := by
  intro chs
  induction chs with
  | nil => intro acc _ p hp; cases hp
  | cons q rest ih =>
    intro acc herr p hp
    obtain ⟨name, ch⟩ := q
    by_cases h : ch.arm_ok
    · rcases List.mem_cons.1 hp with rfl | hmem
      · exact h
      · simp only [startChannelsLoop, ch.start_ok s h] at herr
        by_cases he : (armCounter ch).enabled
        · simp only [he, if_pos] at herr
          exact ih (acc ++ [name]) herr p hmem
        · simp only [he, Bool.false_eq_true, if_neg, not_false_iff] at herr
          exact ih acc herr p hmem
    · simp only [startChannelsLoop, ch.start_err s (by simpa using h)] at herr
      cases herr

/-- `start_channels` never touches the timer. -/
theorem start_channels_timer (app : CountingApp) (s : Nat) :
    (app.start_channels s).1.timer = app.timer := by
  simp [CountingApp.start_channels]

/-- `start_channels` preserves the key list of the channel map. -/
theorem start_channels_keys (app : CountingApp) (s : Nat) :
    (app.start_channels s).1.channels.map Prod.fst = app.channels.map Prod.fst := by
  simp [CountingApp.start_channels, startChannelsLoop_keys]

/-- Dict lookup through a value-wise map of the association list. -/
theorem lookupCh_map (n : String) (f : PulseCounter → PulseCounter) :
    ∀ chs : List (String × PulseCounter),
      lookupCh n (chs.map (fun p => (p.1, f p.2))) = (lookupCh n chs).map f := by
  intro chs
  induction chs with
  | nil => rfl
  | cons p rest ih =>
    obtain ⟨m, c⟩ := p
    by_cases h : m = n
    · simp [lookupCh, h]
    · simp [lookupCh, h, ih]

/-- A name is a key iff its dict lookup succeeds. -/
theorem lookupCh_isSome_iff (n : String) :
    ∀ chs : List (String × PulseCounter),
      (lookupCh n chs).isSome ↔ n ∈ chs.map Prod.fst := by
  intro chs
  induction chs with
  | nil => simp [lookupCh]
  | cons p rest ih =>
    obtain ⟨m, c⟩ := p
    by_cases h : m = n
    · simp [lookupCh, h]
    · simp [lookupCh, h, ih, Ne.symm h]

/-- `setEnabledOne` preserves the key list. -/
theorem setEnabledOne_keys (n : String) (en : Bool) :
    ∀ chs : List (String × PulseCounter),
      (setEnabledOne n en chs).map Prod.fst = chs.map Prod.fst := by
  intro chs
  induction chs with
  | nil => rfl
  | cons p rest ih =>
    obtain ⟨m, c⟩ := p
    by_cases h : m = n
    · simp [setEnabledOne, h]
    · simp [setEnabledOne, h, ih]

/-- Looking up the updated name after `setEnabledOne`. -/
theorem lookupCh_setEnabledOne_same (n : String) (en : Bool) :
    ∀ chs : List (String × PulseCounter),
      lookupCh n (setEnabledOne n en chs) =
        (lookupCh n chs).map (fun c => { c with enabled := en }) := by
  intro chs
  induction chs with
  | nil => rfl
  | cons p rest ih =>
    obtain ⟨m, c⟩ := p
    by_cases h : m = n
    · simp [setEnabledOne, lookupCh, h]
    · simp [setEnabledOne, lookupCh, h, ih]

/-- Looking up a different name after `setEnabledOne`. -/
theorem lookupCh_setEnabledOne_other (n m : String) (en : Bool) (hmn : m ≠ n) :
    ∀ chs : List (String × PulseCounter),
      lookupCh m (setEnabledOne n en chs) = lookupCh m chs := by
  intro chs
  induction chs with
  | nil => rfl
  | cons p rest ih =>
    obtain ⟨k, c⟩ := p
    by_cases h : k = n
    · subst h
      simp [setEnabledOne, lookupCh, Ne.symm hmn]
    · by_cases h2 : k = m
      · subst h2
        simp [setEnabledOne, lookupCh, h]
      · simp [setEnabledOne, lookupCh, h, h2, ih]

/-- `setEnabledLoop` preserves the key list. -/
theorem setEnabledLoop_keys (en : Bool) :
    ∀ (names : List String) (chs : List (String × PulseCounter)),
      (setEnabledLoop en names chs).1.map Prod.fst = chs.map Prod.fst := by
  intro names
  induction names with
  | nil => intro chs; rfl
  | cons n rest ih =>
    intro chs
    cases hl : lookupCh n chs with
    | none => simp [setEnabledLoop, hl]
    | some c => simp [setEnabledLoop, hl, ih, setEnabledOne_keys]

/-- When every requested name is configured, the assignment loop
succeeds: the named channels get the new flag, the others keep theirs. -/
theorem setEnabledLoop_ok (en : Bool) :
    ∀ (names : List String) (chs : List (String × PulseCounter)),
      (∀ n ∈ names, n ∈ chs.map Prod.fst) →
      (setEnabledLoop en names chs).2 = none ∧
      (∀ m ∈ names,
        lookupCh m (setEnabledLoop en names chs).1 =
          (lookupCh m chs).map (fun c => { c with enabled := en })) ∧
      (∀ m, m ∉ names →
        lookupCh m (setEnabledLoop en names chs).1 = lookupCh m chs) := by
  intro names
  induction names with
  | nil => intro chs _; exact ⟨rfl, fun m hm => absurd hm (List.not_mem_nil m), fun m _ => rfl⟩
  | cons n rest ih =>
    intro chs hall
    have hn : n ∈ chs.map Prod.fst := hall n (List.mem_cons_self _ _)
    obtain ⟨c, hc⟩ := Option.isSome_iff_exists.1 ((lookupCh_isSome_iff n chs).2 hn)
    have hrest : ∀ m ∈ rest, m ∈ (setEnabledOne n en chs).map Prod.fst := by
      intro m hm
      rw [setEnabledOne_keys]
      exact hall m (List.mem_cons_of_mem _ hm)
    obtain ⟨h1, h2, h3⟩ := ih (setEnabledOne n en chs) hrest
    refine ⟨?_, ?_, ?_⟩
    · simp [setEnabledLoop, hc, h1]
    · intro m hm
      simp only [setEnabledLoop, hc]
      by_cases hmr : m ∈ rest
      · rw [h2 m hmr]
        by_cases hmn : m = n
        · subst hmn
          rw [lookupCh_setEnabledOne_same, Option.map_map]
          cases lookupCh m chs <;> rfl
        · rw [lookupCh_setEnabledOne_other n m en hmn]
      · have hmn : m = n := by
          rcases List.mem_cons.1 hm with h | h
          · exact h
          · exact absurd h hmr
        subst hmn
        rw [h3 m hmr, lookupCh_setEnabledOne_same]
    · intro m hm
      have hmn : m ≠ n := fun h => hm (h ▸ List.mem_cons_self _ _)
      have hmr : m ∉ rest := fun h => hm (List.mem_cons_of_mem _ h)
      simp only [setEnabledLoop, hc]
      rw [h3 m hmr, lookupCh_setEnabledOne_other n m en hmn]

/-- When the name list has a configured prefix followed by an
unconfigured name, the loop applies the prefix, then stops with the
`KeyError`; the names after the bad one are never processed. -/
theorem setEnabledLoop_err (en : Bool) (bad : String) (badrest : List String) :
    ∀ (good : List String) (chs : List (String × PulseCounter)),
      (∀ n ∈ good, n ∈ chs.map Prod.fst) →
      bad ∉ chs.map Prod.fst →
      setEnabledLoop en (good ++ bad :: badrest) chs =
        ((setEnabledLoop en good chs).1, some "KeyError") := by
  intro good
  induction good with
  | nil =>
    intro chs _ hbad
    have : lookupCh bad chs = none := by
      cases hl : lookupCh bad chs with
      | none => rfl
      | some c =>
        exact absurd ((lookupCh_isSome_iff bad chs).1 (by simp [hl])) hbad
    simp [setEnabledLoop, this]
  | cons n rest ih =>
    intro chs hall hbad
    have hn : n ∈ chs.map Prod.fst := hall n (List.mem_cons_self _ _)
    obtain ⟨c, hc⟩ := Option.isSome_iff_exists.1 ((lookupCh_isSome_iff n chs).2 hn)
    have hrest : ∀ m ∈ rest, m ∈ (setEnabledOne n en chs).map Prod.fst := by
      intro m hm
      rw [setEnabledOne_keys]
      exact hall m (List.mem_cons_of_mem _ hm)
    have hbad' : bad ∉ (setEnabledOne n en chs).map Prod.fst := by
      rw [setEnabledOne_keys]; exact hbad
    simp only [List.cons_append, setEnabledLoop, hc]
    exact ih (setEnabledOne n en chs) hrest hbad'

/-- `start_timer` only touches the timer: channels and started list are
those of the input state (on the error path the whole state is the
input). -/
theorem start_timer_state (app : CountingApp) (s : Nat) (h l d : Int) :
    (app.start_timer s h l d).1.channels = app.channels ∧
    (app.start_timer s h l d).1.channels_started = app.channels_started := by
  cases ht : app.timer.start s h l d <;>
    simp [CountingApp.start_timer, ht]

/-- `stop` leaves the started-names list untouched (the source never
clears `_channels_started` in `stop`). -/
theorem stop_channels_started (app : CountingApp) :
    app.stop.channels_started = app.channels_started := rfl

/-- `stop` preserves the key list of the channel map. -/
theorem stop_keys (app : CountingApp) :
    app.stop.channels.map Prod.fst = app.channels.map Prod.fst := by
  simp [CountingApp.stop]

/-- `set_channels_enabled` leaves the started list and the timer
untouched and preserves the key list. -/
theorem set_channels_enabled_state (app : CountingApp)
    (names : List String) (en : Bool) :
    (app.set_channels_enabled names en).1.channels_started = app.channels_started ∧
    (app.set_channels_enabled names en).1.timer = app.timer ∧
    (app.set_channels_enabled names en).1.channels.map Prod.fst =
      app.channels.map Prod.fst := by
  refine ⟨rfl, rfl, ?_⟩
  simp [CountingApp.set_channels_enabled, setEnabledLoop_keys]

/-- The started-names subset invariant: every name in
`_channels_started` is a key of `_channels`. -/
def StartedSub (app : CountingApp) : Prop :=
  ∀ n ∈ app.channels_started, n ∈ app.channels.map Prod.fst

/-- Any state left by `start_channels` (success or error) satisfies the
subset invariant, whatever the input state was. -/
theorem start_channels_startedSub (app : CountingApp) (s : Nat) :
    StartedSub (app.start_channels s).1 := by
  intro n hn
  have h1 : (app.start_channels s).1.channels_started =
      (startChannelsLoop s app.channels []).2.1 := rfl
  have h2 : (app.start_channels s).1.channels =
      (startChannelsLoop s app.channels []).1 := rfl
  rw [h1] at hn
  rw [h2, startChannelsLoop_keys]
  rcases startChannelsLoop_started_sub s app.channels [] n hn with h | h
  · cases h
  · exact h

/-- The subset invariant holds in every reachable coordinator state. -/
theorem reachable_startedSub {app : CountingApp} (h : Reachable app) :
    StartedSub app := by
  induction h with
  | init channels timer hnodup hunarmed =>
    intro n hn; cases hn
  | step_start_channels s _ _ =>
    exact start_channels_startedSub _ s
  | step_start_timer s ht hl hd _ ih =>
    intro n hn
    obtain ⟨hc, hs⟩ := start_timer_state _ s ht hl hd
    rw [hs] at hn
    rw [hc]
    exact ih n hn
  | step_start_all s ht hl hd _ ih =>
    rename_i app' _
    intro n hn
    cases hsc : app'.start_channels s with
    | mk app'' err =>
      cases err with
      | none =>
        have he : (app'.start_all s ht hl hd).1 =
            (app''.start_timer s ht hl hd).1 := by
          simp [CountingApp.start_all, hsc]
        rw [he] at hn ⊢
        obtain ⟨hc, hs⟩ := start_timer_state app'' s ht hl hd
        rw [hs] at hn
        rw [hc]
        have := start_channels_startedSub app' s
        rw [hsc] at this
        exact this n hn
      | some e =>
        have he : (app'.start_all s ht hl hd).1 = app'' := by
          simp [CountingApp.start_all, hsc]
        rw [he] at hn ⊢
        have := start_channels_startedSub app' s
        rw [hsc] at this
        exact this n hn
  | step_stop _ ih =>
    intro n hn
    rw [stop_channels_started] at hn
    rw [stop_keys]
    exact ih n hn
  | step_set_channels_enabled names en _ ih =>
    intro n hn
    obtain ⟨hs, _, hk⟩ := set_channels_enabled_state _ names en
    rw [hs] at hn
    rw [hk]
    exact ih n hn

/-- The `sample_readies` value the collection loop reads for a name
(`0` as a don't-care default when the name is unconfigured — the loop
raises in that case instead of using the default). -/
def readiesOf (chs : List (String × PulseCounter)) (n : String) : Nat :=
  ((lookupCh n chs).map PulseCounter.sample_readies).getD 0

/-- When every started name is configured, the collection loop succeeds
and appends the readiness of each started channel, in order. -/
theorem samplesReadiesLoop_ok (chs : List (String × PulseCounter)) :
    ∀ (started : List String) (acc : List Nat),
      (∀ n ∈ started, n ∈ chs.map Prod.fst) →
      samplesReadiesLoop chs started acc =
        .ok (acc ++ started.map (readiesOf chs)) := by
  intro started
  induction started with
  | nil => intro acc _; simp [samplesReadiesLoop]
  | cons n rest ih =>
    intro acc hall
    have hn : n ∈ chs.map Prod.fst := hall n (List.mem_cons_self _ _)
    obtain ⟨c, hc⟩ := Option.isSome_iff_exists.1 ((lookupCh_isSome_iff n chs).2 hn)
    have hrest : ∀ m ∈ rest, m ∈ chs.map Prod.fst :=
      fun m hm => hall m (List.mem_cons_of_mem _ hm)
    simp [samplesReadiesLoop, hc, ih (acc ++ [c.sample_readies]) hrest,
      readiesOf]

/-- Python's `min` over a non-empty list (`foldl min`) is a lower bound
of every element. -/
theorem foldl_min_le (rest : List Nat) :
    ∀ (r : Nat) (x : Nat), x ∈ r :: rest → rest.foldl min r ≤ x := by
  induction rest with
  | nil =>
    intro r x hx
    rcases List.mem_singleton.1 hx with rfl
    exact le_refl _
  | cons a rest ih =>
    intro r x hx
    rcases List.mem_cons.1 hx with rfl | hx'
    · calc rest.foldl min (min x a) ≤ min x a :=
            ih (min x a) (min x a) (List.mem_cons_self _ _)
        _ ≤ x := min_le_left _ _
    · rcases List.mem_cons.1 hx' with rfl | hx'' 
      · calc rest.foldl min (min r x) ≤ min r x :=
              ih (min r x) (min r x) (List.mem_cons_self _ _)
          _ ≤ x := min_le_right _ _
      · exact ih (min r a) x (List.mem_cons_of_mem _ hx'')

/-- Python's `min` over a non-empty list is one of the elements. -/
theorem foldl_min_mem (rest : List Nat) :
    ∀ r : Nat, rest.foldl min r ∈ r :: rest := by
  induction rest with
  | nil => intro r; exact List.mem_singleton.2 rfl
  | cons a rest ih =>
    intro r
    have h := ih (min r a)
    rcases List.mem_cons.1 h with heq | hmem
    · rw [List.foldl_cons, heq]
      rcases min_cases r a with ⟨h1, _⟩ | ⟨h1, _⟩
      · rw [h1]; exact List.mem_cons_self _ _
      · rw [h1]; exact List.mem_cons_of_mem _ (List.mem_cons_self _ _)
    · exact List.mem_cons_of_mem _ (List.mem_cons_of_mem _ hmem)

/-- A nonnegative start bound normalises to `min s len`. -/
theorem pyBound_ofNat (len s : Nat) : pyBound len (s : Int) = min s len := by
  simp only [pyBound]
  split
  · omega
  · split
    · omega
    · simp [Int.toNat_ofNat]

/-- The bound `-1` normalises to `len - 1`. -/
theorem pyBound_neg_one (len : Nat) : pyBound len (-1) = len - 1 := by
  simp only [pyBound]
  split
  · split
    · omega
    · rename_i h1 h2
      rw [min_eq_left]
      · omega
      · omega
  · omega

/-- Python's `l[s:-1]` for a nonnegative `s` drops the last element and
then the first `s` elements. -/
theorem pySlice_neg_one (l : List Int) (s : Nat) :
    pySlice l (s : Int) (-1) = l.dropLast.drop s := by
  unfold pySlice
  rw [pyBound_ofNat, pyBound_neg_one, ← List.dropLast_eq_take]
  rcases le_or_lt (s : Nat) l.length with hle | hlt
  · rw [min_eq_left hle]
  · rw [min_eq_right hlt.le]
    rw [List.drop_eq_nil_of_le, List.drop_eq_nil_of_le]
    · calc l.dropLast.length = l.length - 1 := List.length_dropLast l
        _ ≤ s := by omega
    · calc l.dropLast.length = l.length - 1 := List.length_dropLast l
        _ ≤ l.length := Nat.sub_le _ _

/-- Membership of a key-value pair gives a successful lookup when the
keys are unique. -/
theorem lookupCh_of_mem_nodup (n : String) (c : PulseCounter) :
    ∀ chs : List (String × PulseCounter),
      (chs.map Prod.fst).Nodup → (n, c) ∈ chs → lookupCh n chs = some c := by
  intro chs
  induction chs with
  | nil => intro _ h; cases h
  | cons p rest ih =>
    intro hnodup hmem
    obtain ⟨m, d⟩ := p
    rw [List.map_cons, List.nodup_cons] at hnodup
    rcases List.mem_cons.1 hmem with heq | hmem'
    · rw [Prod.mk.injEq] at heq
      obtain ⟨h1, h2⟩ := heq
      subst h1
      subst h2
      simp [lookupCh]
    · have hmn : m ≠ n := by
        intro h
        subst h
        exact hnodup.1 (List.mem_map.2 ⟨(m, c), hmem', rfl⟩)
      simp only [lookupCh, if_neg hmn]
      exact ih hnodup.2 hmem'

/-- A successful lookup comes from a pair in the list. -/
theorem mem_of_lookupCh (n : String) (c : PulseCounter) :
    ∀ chs : List (String × PulseCounter),
      lookupCh n chs = some c → (n, c) ∈ chs := by
  intro chs
  induction chs with
  | nil => intro h; cases h
  | cons p rest ih =>
    intro h
    obtain ⟨m, d⟩ := p
    by_cases hmn : m = n
    · subst hmn
      simp only [lookupCh, if_pos] at h
      obtain rfl := Option.some.injEq .. ▸ h
      exact List.mem_cons_self _ _
    · simp only [lookupCh, if_neg hmn] at h
      exact List.mem_cons_of_mem _ (ih h)

/-! ## Concrete states used as witnesses and counterexamples -/

/-- An enabled channel named `A` holding the buffer `[1,2,3,4,5]`. -/
def chA : PulseCounter :=
  { enabled := true, armed := false, buffer := [1, 2, 3, 4, 5],
    sample_readies := 5, arm_ok := true }

/-- A disabled channel named `B` holding the buffer `[6,7]`. -/
def chB : PulseCounter :=
  { enabled := false, armed := false, buffer := [6, 7],
    sample_readies := 2, arm_ok := true }

/-- A channel whose hardware resource cannot be armed. -/
def chBad : PulseCounter :=
  { enabled := true, armed := false, buffer := [],
    sample_readies := 0, arm_ok := false }

/-- A disabled channel used for the enabled-assignment scenario. -/
def chD : PulseCounter :=
  { enabled := false, armed := false, buffer := [],
    sample_readies := 0, arm_ok := true }

/-- An idle gate generator. -/
def timer0 : PulseTimeGenerator :=
  { armed := false, done := false, arm_ok := true }

/-- A freshly constructed coordinator with channels `A` (enabled) and
`B` (disabled). -/
def appAB : CountingApp :=
  { channels := [("A", chA), ("B", chB)], channels_started := [],
    timer := timer0 }

/-- A coordinator whose single channel fails to arm. -/
def appBad : CountingApp :=
  { channels := [("C", chBad)], channels_started := [], timer := timer0 }

/-- A coordinator with one disabled channel `D`. -/
def appD : CountingApp :=
  { channels := [("D", chD)], channels_started := [], timer := timer0 }

/-- A coordinator state with both channels recorded as started. -/
def appRun : CountingApp :=
  { channels := [("A", chA), ("B", chB)], channels_started := ["A", "B"],
    timer := timer0 }

/-- An enabled, armable channel with an empty buffer. -/
def chE : PulseCounter :=
  { enabled := true, armed := false, buffer := [],
    sample_readies := 0, arm_ok := true }

/-- A coordinator whose second channel fails to arm: a `start_channels`
call on it raises partway, after starting `E` and before reaching
`G`. -/
def appPartial : CountingApp :=
  { channels := [("E", chE), ("F", chBad), ("G", chE)],
    channels_started := [], timer := timer0 }

/-! ## Claim theorems -/

/-- C1: the claim says `get_all_data` returns a mapping whose keys are
exactly `startedNames`, each mapped to that channel's buffer.  The code
(`application.py` line 91) instead evaluates
`self._channels_started[name]` — it indexes the started-names *list*
with a string — so the call raises a `TypeError` in every state whose
started list is non-empty.  Concretely, starting the two-channel
configuration `appAB` collects `["A"]`, and `get_all_data` then raises
instead of returning `{"A": [...]}`. -/
theorem c1_get_all_data_raises :
    (appAB.start_channels 10).1.channels_started = ["A"] ∧
    (appAB.start_channels 10).1.get_all_data =
      .error "TypeError: list indices must be integers or slices, not str" := by
  constructor
  · rfl
  · rfl

/-- C2 counterexample: the claim says a channel with `enabled = false`
is not started by `start_channels`.  In `appAB` the channel `B` is
disabled, yet after `start_channels(10)` it is armed with a freshly
reset buffer — `channel.start` (`application.py` line 52) runs before
the `enabled` test, on every configured channel. -/
theorem c2_disabled_channel_is_started :
    chB.enabled = false ∧
    lookupCh "B" (appAB.start_channels 10).1.channels = some (armCounter chB) ∧
    (armCounter chB).armed = true := by
  refine ⟨rfl, rfl, rfl⟩

/-- C2 (amended): `start_channels(samples)` calls `start(samples)` on
every configured channel regardless of its `enabled` flag (so when every
start succeeds, every channel — disabled ones included — ends up armed
with a reset buffer), and collects into `startedNames` exactly the names
of the channels that are enabled at that moment, in configuration
order.  No channel is stopped. -/
theorem c2_start_channels_starts_every_channel (app : CountingApp) (s : Nat)
    (hok : ∀ p ∈ app.channels, p.2.arm_ok = true) :
    (app.start_channels s).1.channels =
      app.channels.map (fun p => (p.1, armCounter p.2)) ∧
    (app.start_channels s).1.channels_started =
      (app.channels.filter (fun p => p.2.enabled)).map Prod.fst ∧
    (app.start_channels s).2 = none := by
  have h := startChannelsLoop_ok s app.channels [] hok
  refine ⟨?_, ?_, ?_⟩
  · show (startChannelsLoop s app.channels []).1 = _
    rw [h]
  · show (startChannelsLoop s app.channels []).2.1 = _
    rw [h]
    rfl
  · show (startChannelsLoop s app.channels []).2.2 = none
    rw [h]

/-- C2 witness: the amended theorem applied to the concrete two-channel
configuration `appAB` (channel `A` enabled, channel `B` disabled): both
channels end up armed and only `A` is collected. -/
theorem c2_start_channels_starts_every_channel_witness :
    (∀ p ∈ appAB.channels, p.2.arm_ok = true) ∧
    ((appAB.start_channels 10).1.channels =
        appAB.channels.map (fun p => (p.1, armCounter p.2)) ∧
     (appAB.start_channels 10).1.channels_started =
        (appAB.channels.filter (fun p => p.2.enabled)).map Prod.fst ∧
     (appAB.start_channels 10).2 = none) :=
  ⟨by decide, c2_start_channels_starts_every_channel appAB 10 (by decide)⟩

/-- C9: in any coordinator state whose started list is empty (as after
construction, or after a `start_channels` call that collected nothing),
`get_all_data` returns the empty mapping and raises no error: the loop
of `application.py` lines 90-91 never runs. -/
theorem c9_get_all_data_empty (app : CountingApp)
    (h : app.channels_started = []) :
    app.get_all_data = .ok [] := by
  unfold CountingApp.get_all_data
  rw [h]
  rfl

/-- C9 witness: the freshly constructed `appAB` has an empty started
list and `get_all_data` returns the empty mapping. -/
theorem c9_get_all_data_empty_witness :
    appAB.channels_started = [] ∧ appAB.get_all_data = .ok [] :=
  ⟨rfl, c9_get_all_data_empty appAB rfl⟩

/-- C3: whenever every started name is configured (an invariant of
reachable states), `get_samples_readies` returns `ok r` where `r` is
the minimum `sample_readies` over the started channels — a lower bound
of every started channel's readiness that is attained by one of them —
and returns `ok 0` (not an error) when the started list is empty. -/
theorem c3_get_samples_readies_min (app : CountingApp)
    (hsub : ∀ n ∈ app.channels_started, n ∈ app.channels.map Prod.fst) :
    ∃ r, app.get_samples_readies = .ok r ∧
      (app.channels_started = [] → r = 0) ∧
      (∀ n ∈ app.channels_started, ∀ ch,
        lookupCh n app.channels = some ch → r ≤ ch.sample_readies) ∧
      (app.channels_started ≠ [] → ∃ n ∈ app.channels_started, ∃ ch,
        lookupCh n app.channels = some ch ∧ r = ch.sample_readies) := by
  have hloop := samplesReadiesLoop_ok app.channels app.channels_started [] hsub
  rw [List.nil_append] at hloop
  cases hrs : app.channels_started.map (readiesOf app.channels) with
  | nil =>
    have hstart : app.channels_started = [] := List.map_eq_nil_iff.1 hrs
    refine ⟨0, ?_, fun _ => rfl, ?_, ?_⟩
    · unfold CountingApp.get_samples_readies
      rw [hloop, hrs]
    · intro n hn
      rw [hstart] at hn
      cases hn
    · intro hne
      exact absurd hstart hne
  | cons r0 rest =>
    refine ⟨rest.foldl min r0, ?_, ?_, ?_, ?_⟩
    · unfold CountingApp.get_samples_readies
      rw [hloop, hrs]
    · intro hstart
      rw [hstart] at hrs
      cases hrs
    · intro n hn ch hch
      have hval : readiesOf app.channels n = ch.sample_readies := by
        simp [readiesOf, hch]
      have hmem : readiesOf app.channels n ∈ r0 :: rest := by
        rw [← hrs]
        exact List.mem_map.2 ⟨n, hn, rfl⟩
      have h := foldl_min_le rest r0 (readiesOf app.channels n) hmem
      rw [hval] at h
      exact h
    · intro _
      have hmem := foldl_min_mem rest r0
      rw [← hrs] at hmem
      obtain ⟨n, hn, hval⟩ := List.mem_map.1 hmem
      obtain ⟨ch, hch⟩ := Option.isSome_iff_exists.1
        ((lookupCh_isSome_iff n app.channels).2 (hsub n hn))
      refine ⟨n, hn, ch, hch, ?_⟩
      rw [← hval]
      simp [readiesOf, hch]

/-- C3 witness: on the state `appRun` (channels `A` and `B` both
recorded as started, with 5 and 2 samples ready), `get_samples_readies`
returns the minimum, 2. -/
theorem c3_get_samples_readies_min_witness :
    (∀ n ∈ appRun.channels_started, n ∈ appRun.channels.map Prod.fst) ∧
    ∃ r, appRun.get_samples_readies = .ok r ∧
      (appRun.channels_started = [] → r = 0) ∧
      (∀ n ∈ appRun.channels_started, ∀ ch,
        lookupCh n appRun.channels = some ch → r ≤ ch.sample_readies) ∧
      (appRun.channels_started ≠ [] → ∃ n ∈ appRun.channels_started, ∃ ch,
        lookupCh n appRun.channels = some ch ∧ r = ch.sample_readies) :=
  ⟨by decide, c3_get_samples_readies_min appRun (by decide)⟩

/-- C4: `start_all` runs `start_channels(samples)` first and
`start_timer(samples, high, low, delay)` second.  If `start_channels`
raises, `start_all` propagates that error from the state
`start_channels` left behind, and the gate generator's `start` is never
invoked (the timer is exactly the one from before the call); if
`start_channels` succeeds, `start_all` is `start_timer` applied to the
post-`start_channels` state. -/
theorem c4_start_all_order (app : CountingApp) (samples : Nat)
    (high low delay : Int) :
    (∀ app' e, app.start_channels samples = (app', some e) →
      app.start_all samples high low delay = (app', some e) ∧
      app'.timer = app.timer) ∧
    (∀ app', app.start_channels samples = (app', none) →
      app.start_all samples high low delay =
        app'.start_timer samples high low delay) := by
  constructor
  · intro app' e h
    constructor
    · unfold CountingApp.start_all
      rw [h]
    · have := start_channels_timer app samples
      rw [h] at this
      exact this
  · intro app' h
    unfold CountingApp.start_all
    rw [h]

/-- C4 witness: on `appBad`, whose single channel cannot be armed,
`start_channels` raises `ResourceError` and `start_all` returns that
error without touching the timer. -/
theorem c4_start_all_order_witness :
    appBad.start_channels 10 = (appBad, some "ResourceError") ∧
    (appBad.start_all 10 1 1 0 = (appBad, some "ResourceError") ∧
      appBad.timer = appBad.timer) :=
  ⟨rfl, (c4_start_all_order appBad 10 1 1 0).1 appBad "ResourceError" rfl⟩

/-- C5: for a configured channel, `get_channel_data(name, start, end)`
returns the Python slice `buffer[start:end]` (start-inclusive,
end-exclusive, negative bounds counting from the end).  For a
nonnegative `start` and the default `end = -1` this is the buffer
without its last element, then without its first `start` elements; on
the buffer `[1,2,3,4,5]` the call with `(0, -1)` yields `[1,2,3,4]` and
the call with `(2, -1)` yields `[3,4]`. -/
theorem c5_get_channel_data_slice (app : CountingApp) (name : String)
    (ch : PulseCounter) (s : Nat)
    (hc : lookupCh name app.channels = some ch) :
    app.get_channel_data name (s : Int) (-1) = .ok (ch.buffer.dropLast.drop s) ∧
    (ch.buffer = [1, 2, 3, 4, 5] →
      app.get_channel_data name 0 (-1) = .ok [1, 2, 3, 4] ∧
      app.get_channel_data name 2 (-1) = .ok [3, 4]) := by
  constructor
  · unfold CountingApp.get_channel_data
    rw [hc]
    show Except.ok (pySlice ch.buffer (s : Int) (-1)) = _
    rw [pySlice_neg_one]
  · intro hbuf
    unfold CountingApp.get_channel_data
    rw [hc]
    constructor
    · show Except.ok (pySlice ch.buffer 0 (-1)) = _
      rw [hbuf]
      rfl
    · show Except.ok (pySlice ch.buffer 2 (-1)) = _
      rw [hbuf]
      rfl

/-- C5 witness: the slice theorem applied to channel `A` of `appAB`,
whose buffer is `[1,2,3,4,5]`. -/
theorem c5_get_channel_data_slice_witness :
    lookupCh "A" appAB.channels = some chA ∧
    (appAB.get_channel_data "A" 0 (-1) = .ok [1, 2, 3, 4] ∧
     appAB.get_channel_data "A" 2 (-1) = .ok [3, 4]) :=
  ⟨rfl, (c5_get_channel_data_slice appAB "A" chA 0 rfl).2 rfl⟩

/-- C6 counterexample: the claim says a `set_channels_enabled` call
naming an unconfigured channel fails with no state change.  On `appD`
(single disabled channel `D`), the call
`set_channels_enabled(["D", "Z"], true)` does fail with the `KeyError`
for `Z`, but channel `D`'s flag has already been flipped to `true` by
the first loop iteration — the state did change. -/
theorem c6_error_still_mutates :
    (appD.set_channels_enabled ["D", "Z"] true).2 = some "KeyError" ∧
    (lookupCh "D" appD.channels).map PulseCounter.enabled = some false ∧
    (lookupCh "D" (appD.set_channels_enabled ["D", "Z"] true).1.channels).map
      PulseCounter.enabled = some true := by
  refine ⟨rfl, rfl, rfl⟩

/-- C6 (amended): with an empty name list, `set_channels_enabled` sets
every configured channel's flag and succeeds; with a non-empty list of
configured names it sets exactly the named channels' flags and
succeeds; and when the list contains an unconfigured name, the call
fails with `KeyError` (the spec's `NotFoundError`), having set the
flags of the channels named *before* the first unconfigured name, while
channels not among those earlier names keep their flags. -/
theorem c6_set_channels_enabled (app : CountingApp)
    (names : List String) (en : Bool) :
    (names = [] →
      (app.set_channels_enabled names en).2 = none ∧
      ∀ m, lookupCh m (app.set_channels_enabled names en).1.channels =
        (lookupCh m app.channels).map (fun c => { c with enabled := en })) ∧
    (names ≠ [] → (∀ n ∈ names, n ∈ app.channels.map Prod.fst) →
      (app.set_channels_enabled names en).2 = none ∧
      (∀ m ∈ names, lookupCh m (app.set_channels_enabled names en).1.channels =
        (lookupCh m app.channels).map (fun c => { c with enabled := en })) ∧
      (∀ m, m ∉ names →
        lookupCh m (app.set_channels_enabled names en).1.channels =
          lookupCh m app.channels)) ∧
    (∀ good bad badrest, names = good ++ bad :: badrest →
      (∀ n ∈ good, n ∈ app.channels.map Prod.fst) →
      bad ∉ app.channels.map Prod.fst →
      (app.set_channels_enabled names en).2 = some "KeyError" ∧
      (∀ m ∈ good, lookupCh m (app.set_channels_enabled names en).1.channels =
        (lookupCh m app.channels).map (fun c => { c with enabled := en })) ∧
      (∀ m, m ∉ good →
        lookupCh m (app.set_channels_enabled names en).1.channels =
          lookupCh m app.channels)) := by
  refine ⟨?_, ?_, ?_⟩
  · intro hnil
    subst hnil
    have hkeys : ∀ n ∈ app.channels.map Prod.fst, n ∈ app.channels.map Prod.fst :=
      fun n hn => hn
    obtain ⟨h1, h2, h3⟩ := setEnabledLoop_ok en (app.channels.map Prod.fst)
      app.channels hkeys
    constructor
    · show (setEnabledLoop en (app.channels.map Prod.fst) app.channels).2 = none
      exact h1
    · intro m
      show lookupCh m (setEnabledLoop en (app.channels.map Prod.fst) app.channels).1 = _
      by_cases hm : m ∈ app.channels.map Prod.fst
      · exact h2 m hm
      · rw [h3 m hm]
        have : lookupCh m app.channels = none := by
          cases hl : lookupCh m app.channels with
          | none => rfl
          | some c =>
            exact absurd ((lookupCh_isSome_iff m app.channels).1 (by simp [hl])) hm
        rw [this]
        rfl
  · intro hne hall
    obtain ⟨h1, h2, h3⟩ := setEnabledLoop_ok en names app.channels hall
    have hsel : (if names = [] then app.channels.map Prod.fst else names) = names :=
      if_neg hne
    refine ⟨?_, ?_, ?_⟩
    · show (setEnabledLoop en (if names = [] then app.channels.map Prod.fst
        else names) app.channels).2 = none
      rw [hsel]
      exact h1
    · intro m hm
      show lookupCh m (setEnabledLoop en (if names = [] then
        app.channels.map Prod.fst else names) app.channels).1 = _
      rw [hsel]
      exact h2 m hm
    · intro m hm
      show lookupCh m (setEnabledLoop en (if names = [] then
        app.channels.map Prod.fst else names) app.channels).1 = _
      rw [hsel]
      exact h3 m hm
  · intro good bad badrest hsplit hgood hbad
    have hne : names ≠ [] := by
      rw [hsplit]
      exact List.append_ne_nil_of_right_ne_nil _ (List.cons_ne_nil _ _)
    have hsel : (if names = [] then app.channels.map Prod.fst else names) = names :=
      if_neg hne
    have herr := setEnabledLoop_err en bad badrest good app.channels hgood hbad
    obtain ⟨_, g2, g3⟩ := setEnabledLoop_ok en good app.channels hgood
    refine ⟨?_, ?_, ?_⟩
    · show (setEnabledLoop en (if names = [] then app.channels.map Prod.fst
        else names) app.channels).2 = some "KeyError"
      rw [hsel, hsplit, herr]
    · intro m hm
      show lookupCh m (setEnabledLoop en (if names = [] then
        app.channels.map Prod.fst else names) app.channels).1 = _
      rw [hsel, hsplit, herr]
      exact g2 m hm
    · intro m hm
      show lookupCh m (setEnabledLoop en (if names = [] then
        app.channels.map Prod.fst else names) app.channels).1 = _
      rw [hsel, hsplit, herr]
      exact g3 m hm

/-- C6 witness: the amended theorem applied to `appD` with the name
list `["D", "Z"]` (`D` configured, `Z` not): the call fails with
`KeyError` and `D` — named before `Z` — has its flag set. -/
theorem c6_set_channels_enabled_witness :
    (["D", "Z"] : List String) = ["D"] ++ "Z" :: [] ∧
    (∀ n ∈ (["D"] : List String), n ∈ appD.channels.map Prod.fst) ∧
    "Z" ∉ appD.channels.map Prod.fst ∧
    ((appD.set_channels_enabled ["D", "Z"] true).2 = some "KeyError" ∧
     (∀ m ∈ (["D"] : List String),
        lookupCh m (appD.set_channels_enabled ["D", "Z"] true).1.channels =
          (lookupCh m appD.channels).map (fun c => { c with enabled := true })) ∧
     (∀ m, m ∉ (["D"] : List String) →
        lookupCh m (appD.set_channels_enabled ["D", "Z"] true).1.channels =
          lookupCh m appD.channels)) :=
  ⟨rfl, by decide, by decide,
    (c6_set_channels_enabled appD ["D", "Z"] true).2.2 ["D"] "Z" []
      rfl (by decide) (by decide)⟩

/-- C7: `stop` stops the gate generator first (`application.py` line
75) and then stops every configured channel — the loop on line 77 runs
over `self._channels.values()`, not over the started subset — leaving
every channel disarmed while its flag, buffer and readiness survive.
Both `PulseTimeGenerator.stop` and `PulseCounter.stop` are total
(section 4.1: safe whether or not the component was started), so `stop`
raises no error for a channel that was never started. -/
theorem c7_stop_all_channels (app : CountingApp) :
    app.stop.timer = app.timer.stop ∧
    (∀ n ch, lookupCh n app.channels = some ch →
      lookupCh n app.stop.channels = some ch.stop ∧
      ch.stop.armed = false ∧
      ch.stop.enabled = ch.enabled ∧ ch.stop.buffer = ch.buffer) ∧
    app.stop.channels.map Prod.fst = app.channels.map Prod.fst ∧
    app.stop.channels_started = app.channels_started := by
  refine ⟨rfl, ?_, stop_keys app, rfl⟩
  intro n ch hc
  have hmap : lookupCh n app.stop.channels = (lookupCh n app.channels).map
      PulseCounter.stop := lookupCh_map n PulseCounter.stop app.channels
  rw [hmap, hc]
  exact ⟨rfl, rfl, rfl, rfl⟩

/-- C7 witness: stopping `appRun` stops channel `B` as well, although
`B` is disabled and was never started in the current run. -/
theorem c7_stop_all_channels_witness :
    lookupCh "B" appRun.channels = some chB ∧
    (lookupCh "B" appRun.stop.channels = some chB.stop ∧
     chB.stop.armed = false ∧
     chB.stop.enabled = chB.enabled ∧ chB.stop.buffer = chB.buffer) :=
  ⟨rfl, (c7_stop_all_channels appRun).2.1 "B" chB rfl⟩

/-- The names collected by `startChannelsLoop`, for every outcome of
the call: the accumulator followed by the keys of the enabled channels
among the traversed prefix whose starts succeed — the loop stops at the
first channel whose `start` raises, so exactly the channels in the
longest all-`arm_ok` prefix are the ones this call starts. -/
theorem startChannelsLoop_started (s : Nat) :
    ∀ (chs : List (String × PulseCounter)) (acc : List String),
      (startChannelsLoop s chs acc).2.1 =
        acc ++ ((chs.takeWhile (fun p => p.2.arm_ok)).filter
          (fun p => p.2.enabled)).map Prod.fst := by
  intro chs
  induction chs with
  | nil => intro acc; simp [startChannelsLoop]
  | cons p rest ih =>
    intro acc
    obtain ⟨name, ch⟩ := p
    by_cases h : ch.arm_ok
    · simp only [startChannelsLoop, ch.start_ok s h]
      rw [List.takeWhile_cons_of_pos (by simpa using h)]
      by_cases he : ch.enabled
      · have harm : (armCounter ch).enabled = true := by simp [armCounter, he]
        simp only [harm, if_pos]
        rw [ih (acc ++ [name]), List.filter_cons_of_pos (by simpa using he)]
        simp
      · have harm : (armCounter ch).enabled = false := by
          simpa [armCounter] using (by simpa using he : ch.enabled = false)
        simp only [harm, Bool.false_eq_true, if_neg, not_false_iff]
        rw [ih acc, List.filter_cons_of_neg (by simpa using he)]
    · simp only [startChannelsLoop, ch.start_err s (by simpa using h)]
      rw [List.takeWhile_cons_of_neg (by simpa using h)]
      simp

/-- A pair in the all-`arm_ok` prefix of the channel map is in the
channel map. -/
theorem mem_of_mem_takeWhileArm :
    ∀ (chs : List (String × PulseCounter)) (q : String × PulseCounter),
      q ∈ chs.takeWhile (fun p => p.2.arm_ok) → q ∈ chs := by
  intro chs
  induction chs with
  | nil => intro q h; simp at h
  | cons p rest ih =>
    intro q h
    by_cases hp : p.2.arm_ok
    · rw [List.takeWhile_cons_of_pos (by simpa using hp)] at h
      rcases List.mem_cons.1 h with rfl | h2
      · exact List.mem_cons_self _ _
      · exact List.mem_cons_of_mem _ (ih q h2)
    · rw [List.takeWhile_cons_of_neg (by simpa using hp)] at h
      cases h

/-- C8: in every reachable coordinator state — including states left by
a `start_channels` call that raised partway — `startedNames` is a
subset of the configured channel names; and for a channel map with
unique names, after any `start_channels` call (successful or not) a
name is in `startedNames` iff it names a configured channel that the
call actually started — one in the longest prefix of the channel map
whose starts all succeed, i.e. the channels processed before the first
failure — and whose `enabled` flag was true at that moment.  (On a
successful call that prefix is the whole map, so this reduces to
"configured and enabled".) -/
theorem c8_started_names_invariant :
    (∀ app : CountingApp, Reachable app →
      ∀ n ∈ app.channels_started, n ∈ app.channels.map Prod.fst) ∧
    (∀ (app : CountingApp) (s : Nat),
      (app.channels.map Prod.fst).Nodup →
      ∀ n, n ∈ (app.start_channels s).1.channels_started ↔
        ∃ ch, lookupCh n app.channels = some ch ∧ ch.enabled = true ∧
          (n, ch) ∈ app.channels.takeWhile (fun p => p.2.arm_ok)) := by
  constructor
  · intro app h
    exact reachable_startedSub h
  · intro app s hnodup n
    have hstarted : (app.start_channels s).1.channels_started =
        ((app.channels.takeWhile (fun p => p.2.arm_ok)).filter
          (fun p => p.2.enabled)).map Prod.fst := by
      have h1 : (app.start_channels s).1.channels_started =
          (startChannelsLoop s app.channels []).2.1 := rfl
      rw [h1, startChannelsLoop_started s app.channels [], List.nil_append]
    rw [hstarted]
    constructor
    · intro hn
      obtain ⟨p, hp, hpn⟩ := List.mem_map.1 hn
      obtain ⟨hpmem, hpen⟩ := List.mem_filter.1 hp
      obtain ⟨m, c⟩ := p
      subst hpn
      have hfull : (m, c) ∈ app.channels :=
        mem_of_mem_takeWhileArm app.channels (m, c) hpmem
      exact ⟨c, lookupCh_of_mem_nodup m c app.channels hnodup hfull,
        by simpa using hpen, hpmem⟩
    · rintro ⟨ch, hch, hen, hpre⟩
      apply List.mem_map.2
      exact ⟨(n, ch), List.mem_filter.2 ⟨hpre, by simpa using hen⟩, rfl⟩

/-- C8 witness: the invariant applied to the partially failed call on
`appPartial` (channel `E` armable and enabled, `F` enabled but failing
to arm, `G` armable and enabled but behind the failure).  The subset
half is applied at the reachable state the failed call leaves behind;
the characterisation at `E` (collected: before the failure, enabled)
and at `G` (not collected although configured and enabled: the call
never started it). -/
theorem c8_started_names_invariant_witness :
    ("E" ∈ (appPartial.start_channels 5).1.channels.map Prod.fst) ∧
    ("E" ∈ (appPartial.start_channels 5).1.channels_started ↔
      ∃ ch, lookupCh "E" appPartial.channels = some ch ∧ ch.enabled = true ∧
        ("E", ch) ∈ appPartial.channels.takeWhile (fun p => p.2.arm_ok)) ∧
    ("G" ∈ (appPartial.start_channels 5).1.channels_started ↔
      ∃ ch, lookupCh "G" appPartial.channels = some ch ∧ ch.enabled = true ∧
        ("G", ch) ∈ appPartial.channels.takeWhile (fun p => p.2.arm_ok)) :=
  ⟨c8_started_names_invariant.1 (appPartial.start_channels 5).1
      (Reachable.step_start_channels 5
        (Reachable.init appPartial.channels appPartial.timer
          (by decide) (by decide)))
      "E" (by decide),
   c8_started_names_invariant.2 appPartial 5 (by decide) "E",
   c8_started_names_invariant.2 appPartial 5 (by decide) "G"⟩

/-- C10: `get_channel_data` reads only the named channel's buffer: for
any configured channel it returns the requested slice whether or not
the channel is enabled and whether or not its name is in
`startedNames` — the started list is not consulted at all, and a state
holding the same channel with any other `enabled` value yields the same
result. -/
theorem c10_get_channel_data_unconditional (app : CountingApp)
    (name : String) (ch : PulseCounter) (s e : Int)
    (hc : lookupCh name app.channels = some ch) :
    app.get_channel_data name s e = .ok (pySlice ch.buffer s e) ∧
    (∀ started : List String,
      (CountingApp.mk app.channels started app.timer).get_channel_data name s e =
        app.get_channel_data name s e) ∧
    (∀ (en : Bool) (app' : CountingApp),
      lookupCh name app'.channels = some { ch with enabled := en } →
      app'.get_channel_data name s e = app.get_channel_data name s e) := by
  refine ⟨?_, fun _ => rfl, ?_⟩
  · unfold CountingApp.get_channel_data
    rw [hc]
  · intro en app' hc'
    unfold CountingApp.get_channel_data
    rw [hc, hc']

/-- C10 witness: reading channel `B` of the fresh `appAB` — disabled
and not started — returns its buffer slice all the same. -/
theorem c10_get_channel_data_unconditional_witness :
    lookupCh "B" appAB.channels = some chB ∧
    appAB.get_channel_data "B" 0 (-1) = .ok (pySlice chB.buffer 0 (-1)) :=
  ⟨rfl, (c10_get_channel_data_unconditional appAB "B" chB 0 (-1) rfl).1⟩
